import Mathlib

/-!
Verification of the continuous pronunciation-assessment core of the
node-tts service (`continueRecognize` and its inner
`calculateOverallPronunciationScore`, plus the HTTP routing decision).

Modelling conventions for the shallow embedding:
* JavaScript numbers are modelled as exact rationals (`ℚ`).  The special
  values produced by division (`NaN`, `Infinity`, `-Infinity`) are made
  explicit through the `JSNum` type, because the source divides without
  guarding the denominator.
* `Number(x.toFixed(0))` is modelled by `jsRound`: round to the nearest
  integer, ties towards the larger value (the ECMAScript `toFixed` rule
  "if there are two such n, pick the larger n").
* JavaScript strings are modelled as `List Char` inside the text
  normalizer, so that `split`, `trim` and character stripping are
  structurally recursive and provable; elsewhere tokens are opaque
  `String`s.
* In-place mutation of shared word records (the classifier overwrites
  `ErrorType` on objects that also sit in `allWords`) is modelled by
  keeping references (`RecEntry.hypRef`) into the word array and
  materialising them against the final, mutated array.
-/

/-- JavaScript number values as produced by the score arithmetic of the
source: either a finite rational or one of the special values that
unguarded division can produce. -/
inductive JSNum where
  | nan : JSNum
  | posInf : JSNum
  | negInf : JSNum
  | fin : ℚ → JSNum
deriving DecidableEq, Repr

/-- `Number(x.toFixed(0))` for a finite `x`: nearest integer, ties to the
larger candidate, i.e. `⌊x + 1/2⌋`.  Defined through `Rat.floor` so that
it evaluates by kernel reduction. -/
def jsRound (q : ℚ) : ℤ := (q + 1/2).floor

/-- JavaScript division `a / b` on finite operands, including the
`0/0 = NaN` and `a/0 = ±Infinity` cases. -/
def jsDivQ (a b : ℚ) : JSNum :=
  if b = 0 then
    if a = 0 then JSNum.nan else if 0 < a then JSNum.posInf else JSNum.negInf
  else JSNum.fin (a / b)

/-- Multiplication of a JavaScript number by a positive finite constant
(the source only multiplies by `100`). -/
def jsMulQ (x : JSNum) (q : ℚ) : JSNum :=
  match x with
  | JSNum.nan => JSNum.nan
  | JSNum.posInf => if 0 < q then JSNum.posInf else if q < 0 then JSNum.negInf else JSNum.nan
  | JSNum.negInf => if 0 < q then JSNum.negInf else if q < 0 then JSNum.posInf else JSNum.nan
  | JSNum.fin a => JSNum.fin (a * q)

/-- `Number(x.toFixed(0))` lifted to `JSNum`:
`NaN.toFixed(0) = "NaN"` and `Infinity.toFixed(0) = "Infinity"`, which
`Number` maps back to `NaN` / `Infinity`. -/
def jsToFixed0 (x : JSNum) : JSNum :=
  match x with
  | JSNum.nan => JSNum.nan
  | JSNum.posInf => JSNum.posInf
  | JSNum.negInf => JSNum.negInf
  | JSNum.fin q => JSNum.fin ((jsRound q : ℤ) : ℚ)

/-- The JavaScript comparison `x > 100` (false for `NaN`). -/
def jsGt100 (x : JSNum) : Bool :=
  match x with
  | JSNum.nan => false
  | JSNum.posInf => true
  | JSNum.negInf => false
  | JSNum.fin q => decide (100 < q)

/-- One word-level result from the recognition engine
(`jo.NBest[0].Words[k]`): surface form, `PronunciationAssessment.AccuracyScore`,
`PronunciationAssessment.ErrorType`, `Duration` and `Offset`. -/
structure EngineWord where
  word : String
  accuracy : ℚ
  errorType : String
  duration : ℚ
  offset : ℚ
deriving DecidableEq, Repr

/-! ## Text normalizer (lines 265-280 of the source)

`resTextProcessed` / `wholelyrics` are built by lowercasing and deleting
every character matched by `[!"#$%&()*+,-./:;<=>?@[^_`{|}~]+` and then
every `]`.  The reference side is split on `" "`, filtered of falsy
(empty) tokens and trimmed; the hypothesis side is only split. -/

/-- The characters deleted by the first `replace` call of the source.
The second `replace` call additionally deletes `]`. -/
def strippedChars : List Char := "!\"#$%&()*+,-./:;<=>?@[^_`\x7b|\x7d~".toList

/-- `toLocaleLowerCase`, modelled character-wise. -/
def lowerL (l : List Char) : List Char := l.map Char.toLower

/-- Both `replace(new RegExp(...), "")` calls: delete every character of
`strippedChars` and every `]`. -/
def stripPunct (l : List Char) : List Char :=
  l.filter (fun c => ¬ (c ∈ strippedChars ∨ c = ']'))

/-- JavaScript `String.prototype.split(" ")`: split on every single
space, keeping empty pieces (`"".split(" ") = [""]`). -/
def jsSplit : List Char → List (List Char)
  | [] => [[]]
  | c :: rest =>
    match jsSplit rest with
    | [] => [[]]
    | t :: ts => if c = ' ' then [] :: t :: ts else (c :: t) :: ts

/-- JavaScript `String.prototype.trim()`: drop whitespace from both
ends. -/
def jsTrim (l : List Char) : List Char :=
  ((l.dropWhile Char.isWhitespace).reverse.dropWhile Char.isWhitespace).reverse

/-- `wholelyricsArryRes`: the normalized reference token sequence
(lowercase, punctuation stripped, split on spaces, falsy tokens dropped,
each token trimmed). -/
def normalizeRef (s : List Char) : List (List Char) :=
  ((jsSplit (stripPunct (lowerL s))).filter (fun t => t ≠ [])).map jsTrim

/-- `resTextArray`: the hypothesis-side token sequence.  The source
applies no filtering and no trimming on this side. -/
def normalizeHyp (s : List Char) : List (List Char) :=
  jsSplit (stripPunct (lowerL s))

/-! ## Error classifier (lines 284-328 of the source)

`difflib.SequenceMatcher(...).getOpcodes()` yields blocks
`[tag, i1, i2, j1, j2]`; the classifier walks them in order.  The blocks
themselves are inputs here: the claims quantify over the blocks the
aligner produced. -/

/-- One alignment block `[tag, i1, i2, j1, j2]` of `getOpcodes()`. -/
structure Opcode where
  tag : String
  i1 : ℕ
  i2 : ℕ
  j1 : ℕ
  j2 : ℕ
deriving DecidableEq, Repr

/-- An entry pushed onto `lastWords`: either a reference to
`allWords[j]` (JavaScript pushes the object itself, so later in-place
mutation is visible through it) or a synthesized Omission placeholder
`{ Word: token, PronunciationAssessment: { ErrorType: "Omission" } }`. -/
inductive RecEntry where
  | hypRef : ℕ → RecEntry
  | omission : String → RecEntry
deriving DecidableEq, Repr

/-- The `lastWords` pushes performed for one opcode block, in source
order: the `insert`/`replace` branch first, then the
`delete`/`replace` branch with its trailing-tail skip
(`d[2] == wholelyricsArryRes.length` and RecognitionStatus not
`Success`/`Failed`), then the `equal` branch.  Out-of-range
`wholelyricsArryRes[i]` would be `undefined` in the source; it is
modelled by `getD _ ""` and never exercised by the theorems. -/
def entriesOfBlock (refWords : List String) (status : String) (d : Opcode) : List RecEntry :=
  (if d.tag = "insert" ∨ d.tag = "replace" then
      (List.range' d.j1 (d.j2 - d.j1)).map RecEntry.hypRef
    else []) ++
  (if d.tag = "delete" ∨ d.tag = "replace" then
      if d.i2 = refWords.length ∧ ¬ (status = "Success" ∨ status = "Failed") then []
      else (List.range' d.i1 (d.i2 - d.i1)).map (fun i => RecEntry.omission (refWords.getD i ""))
    else []) ++
  (if d.tag = "equal" then (List.range' d.j1 (d.j2 - d.j1)).map RecEntry.hypRef else [])

/-- All `lastWords` entries, over the opcode list in order. -/
def classifyEntries (refWords : List String) (status : String) (ops : List Opcode) : List RecEntry :=
  ops.flatMap (entriesOfBlock refWords status)

/-- The hypothesis indices whose `ErrorType` the block overwrites with
`"Insertion"`.  The source guards with `allWords.length > 0` (`n` here);
overwriting an entry already marked `"Insertion"` is a no-op, so the
extra `!== "Insertion"` test of the source does not change the result. -/
def forcedOfBlock (n : ℕ) (d : Opcode) : List ℕ :=
  if (d.tag = "insert" ∨ d.tag = "replace") ∧ 0 < n then List.range' d.j1 (d.j2 - d.j1) else []

/-- All indices forced to `"Insertion"` over the whole opcode list. -/
def forcedAll (n : ℕ) (ops : List Opcode) : List ℕ :=
  ops.flatMap (forcedOfBlock n)

/-- Apply the in-place `ErrorType = "Insertion"` mutations to the word
array, starting at index `k`. -/
def mutateFrom (k : ℕ) (forced : List ℕ) : List EngineWord → List EngineWord
  | [] => []
  | w :: ws =>
    (if k ∈ forced then { w with errorType := "Insertion" } else w) :: mutateFrom (k + 1) forced ws

/-- `allWords` after the classifier loop has run over `ops`. -/
def mutatedAllWords (allWords : List EngineWord) (ops : List Opcode) : List EngineWord :=
  mutateFrom 0 (forcedAll allWords.length ops) allWords

/-- A materialised `lastWords` element: an engine word or an Omission
placeholder. -/
inductive RWord where
  | engine : EngineWord → RWord
  | omitted : String → RWord
deriving DecidableEq, Repr

/-- `word.PronunciationAssessment.ErrorType` of a reconciled word. -/
def rwErrorType : RWord → String
  | RWord.engine w => w.errorType
  | RWord.omitted _ => "Omission"

/-- `Number(word.PronunciationAssessment.AccuracyScore ?? 0)`: omission
placeholders have no `AccuracyScore`, so they contribute `0`. -/
def rwAccuracy : RWord → ℚ
  | RWord.engine w => w.accuracy
  | RWord.omitted _ => 0

/-- Materialise one `lastWords` entry against the final (mutated) word
array; `allWords[j]` for an out-of-range `j` is `undefined` (`none`). -/
def materializeEntry (mutated : List EngineWord) : RecEntry → Option RWord
  | RecEntry.hypRef j => (mutated.get? j).map RWord.engine
  | RecEntry.omission t => some (RWord.omitted t)

/-- The reconciled `lastWords` list of the source, with the in-place
mutations applied. -/
def lastWordsOf (allWords : List EngineWord) (refWords : List String)
    (status : String) (ops : List Opcode) : List (Option RWord) :=
  (classifyEntries refWords status ops).map (materializeEntry (mutatedAllWords allWords ops))

/-! ## Score aggregation (lines 333-390 of the source) -/

/-- `accuracyScores` (lines 348-355): over `lastWords`, skip falsy
(`undefined`) entries and entries tagged `"Insertion"`, collect
`Number(word.PronunciationAssessment.AccuracyScore ?? 0)`. -/
def accuracyList (lw : List (Option RWord)) : List ℚ :=
  lw.filterMap (fun ow =>
    match ow with
    | none => none
    | some w => if rwErrorType w = "Insertion" then none else some (rwAccuracy w))

/-- `scoreNumber.accuracyScore` (lines 356-358):
`Number((sum/length).toFixed(0))`; `NaN` when the list is empty. -/
def accuracyScoreVal (lw : List (Option RWord)) : JSNum :=
  jsToFixed0 (jsDivQ (accuracyList lw).sum ((accuracyList lw).length : ℚ))

/-- `scoreNumber.compScore` (lines 333-345): count the accumulated
`recognizedWords` still tagged `"None"`, divide by the reference token
count, scale to 100, round, and cap at 100.  The division is unguarded
in the source. -/
def compScore (recognizedWords : List EngineWord) (refLen : ℕ) : JSNum :=
  let res := recognizedWords.filter (fun w => w.errorType = "None")
  let raw := jsToFixed0 (jsMulQ (jsDivQ (res.length : ℚ) (refLen : ℚ)) 100)
  if jsGt100 raw then JSNum.fin 100 else raw

/-- `scoreNumber.fluencyScore` (lines 360-366): computed only when
`startOffset` is truthy (nonzero); otherwise it keeps its initial value
`0`.  When computed it is `Σ fluency_i·duration_i / Σ duration_i`,
unguarded. -/
def fluencyScoreEmb (startOffset : ℚ) (fluencyScores durations : List ℚ) : JSNum :=
  if startOffset ≠ 0 then
    jsDivQ (List.zipWith (· * ·) fluencyScores durations).sum durations.sum
  else JSNum.fin 0

/-- `scoreNumber.prosodyScore` (line 368): unweighted mean, unguarded
(`NaN` for an empty segment list). -/
def prosodyScoreEmb (prosodyScores : List ℚ) : JSNum :=
  jsDivQ prosodyScores.sum (prosodyScores.length : ℚ)

/-- `scoreNumber.pronScore` (lines 370-390).  `Object.keys(scoreNumber)`
enumerates the four keys in insertion order `accuracyScore,
fluencyScore, compScore, prosodyScore`; `.sort` orders them ascending by
value (stable, and ties cannot change the weighted sum), modelled by a
stable insertion sort on the value list.  Terminal status
(`Success`/`Failed`): weights 0.4/0.2/0.2/0.2 on the sorted values;
otherwise `0.6·accuracy + 0.2·fluency + 0.2·prosody`. -/
def pronScore (accuracy fluency comp prosody : ℚ) (status : String) : ℚ :=
  let sorted := List.insertionSort (· ≤ ·) [accuracy, fluency, comp, prosody]
  if status = "Success" ∨ status = "Failed" then
    ((jsRound (sorted.getD 0 0 * 0.4 + sorted.getD 1 0 * 0.2 +
        sorted.getD 2 0 * 0.2 + sorted.getD 3 0 * 0.2) : ℤ) : ℚ)
  else
    ((jsRound (accuracy * 0.6 + fluency * 0.2 + prosody * 0.2) : ℤ) : ℚ)

/-! ## Segment accumulator (`reco.recognized`, lines 234-262) -/

/-- One `recognized` event payload, i.e. the parsed
`jo.NBest[0]` together with `jo.RecognitionStatus`. -/
structure RecoEvent where
  words : List EngineWord
  fluency : ℚ
  prosody : ℚ
  status : String
deriving DecidableEq, Repr

/-- The mutable accumulation state of `continueRecognize`. -/
structure AccState where
  currentText : List String
  recognizedWords : List EngineWord
  allWords : List EngineWord
  fluencyScores : List ℚ
  prosodyScores : List ℚ
  durations : List ℚ
  startOffset : ℚ
  status : String
deriving DecidableEq, Repr

/-- The initial state (lines 205-212): everything empty, `startOffset`
0, no `jo` yet (status `""`). -/
def initAcc : AccState :=
  { currentText := [], recognizedWords := [], allWords := [], fluencyScores := [],
    prosodyScores := [], durations := [], startOffset := 0, status := "" }

/-- One `reco.recognized` callback invocation.  `startOffset` is
overwritten with the Offset of the event's first word (the source
dereferences `nb.Words[0]`, which throws for an empty word list; the
theorems only cover events with at least one word).  `recognizedWords`
receives every word; `allWords` only the words of events whose
`RecognitionStatus` is `"Success"`. -/
def onRecognized (st : AccState) (e : RecoEvent) : AccState :=
  { currentText := st.currentText ++ e.words.map (fun w => w.word.toLower)
    recognizedWords := st.recognizedWords ++ e.words
    allWords := if e.status = "Success" then st.allWords ++ e.words else st.allWords
    fluencyScores := st.fluencyScores ++ [e.fluency]
    prosodyScores := st.prosodyScores ++ [e.prosody]
    durations := st.durations ++ [(e.words.map (fun w => w.duration)).sum]
    startOffset := ((e.words.head?).map (fun w => w.offset)).getD st.startOffset
    status := e.status }

/-- Fold a whole event sequence from the initial state. -/
def runEvents (events : List RecoEvent) : AccState :=
  events.foldl onRecognized initAcc

/-! ## HTTP routing (lines 78-80 and 164-173 of the source) -/

/-- `const isShortAudio = audioDuration <= 30`. -/
def isShortAudio (d : ℚ) : Bool := decide (d ≤ 30)

/-- Continuous-path response status:
`result?.Words?.length > 1 ? 200 : 500`. -/
def respStatusContinuous (wordsLen : ℕ) : ℕ :=
  if 1 < wordsLen then 200 else 500

/-- The recognized-word list of the spec's Scenario B/C blend: three
words still tagged `"None"` plus one reclassified `"Insertion"`. -/
def scenarioWords : List EngineWord :=
  [{ word := "the", accuracy := 100, errorType := "None", duration := 10, offset := 0 },
   { word := "brown", accuracy := 90, errorType := "None", duration := 10, offset := 10 },
   { word := "fox", accuracy := 80, errorType := "None", duration := 10, offset := 20 },
   { word := "very", accuracy := 70, errorType := "Insertion", duration := 10, offset := 30 }]

/-! ## Claims -/

/-- `jsRound` agrees with the mathematical floor of `q + 1/2`. -/
theorem jsRound_eq_floor (q : ℚ) : jsRound q = ⌊q + 1/2⌋ := by
  unfold jsRound
  rw [Rat.floor_def', ← Rat.floor_def]

/-- Auxiliary: folding `onRecognized` appends each event's word list to
`recognizedWords`, from any starting state. -/
theorem foldl_onRecognized_recognizedWords (events : List RecoEvent) :
    ∀ st : AccState,
      (events.foldl onRecognized st).recognizedWords
        = st.recognizedWords ++ events.flatMap (fun e => e.words) := by
  induction events with
  | nil => intro st; simp
  | cons e es ih =>
    intro st
    simp only [List.foldl_cons, List.flatMap_cons, ih, onRecognized, List.append_assoc]

/-- Claim C9: after any sequence of `recognized` events (each carrying
at least one word, as the source dereferences `nb.Words[0]`), the
accumulated `recognizedWords` sequence is exactly the concatenation, in
arrival order, of each event's word list — including the words of events
whose RecognitionStatus is not `"Success"`. -/
theorem claim_c9_accumulation (events : List RecoEvent)
    (_hne : ∀ e ∈ events, e.words ≠ []) :
    (runEvents events).recognizedWords = events.flatMap (fun e => e.words) := by
  have h := foldl_onRecognized_recognizedWords events initAcc
  simpa [runEvents, initAcc] using h

/-- Witness for C9 at a concrete two-event run whose second event has a
non-`"Success"` status: its words are still accumulated. -/
theorem claim_c9_accumulation_witness :
    (runEvents
        [{ words := [{ word := "the", accuracy := 95, errorType := "None",
                       duration := 10, offset := 1 }],
           fluency := 90, prosody := 80, status := "Success" },
         { words := [{ word := "fox", accuracy := 40, errorType := "None",
                       duration := 12, offset := 20 }],
           fluency := 70, prosody := 60, status := "Failed" }]).recognizedWords
      = [{ word := "the", accuracy := 95, errorType := "None", duration := 10, offset := 1 },
         { word := "fox", accuracy := 40, errorType := "None", duration := 12, offset := 20 }] := by
  rw [claim_c9_accumulation _ (by decide)]
  decide

/-- Claim C10 (implicit): on the continuous path (audio duration above
30 seconds), the response is a 500 failure whenever the finalized
result's `Words` list has length 0 or 1 — regardless of the computed
scores — and a 200 success requires at least two recognized words. -/
theorem claim_c10_continuous (d : ℚ) (n : ℕ) (hd : 30 < d) :
    isShortAudio d = false ∧
    ((n = 0 ∨ n = 1) → respStatusContinuous n = 500) ∧
    (respStatusContinuous n = 200 → 2 ≤ n) := by
  refine ⟨?_, ?_, ?_⟩
  · simp only [isShortAudio, decide_eq_false_iff_not]
    exact not_le.mpr hd
  · rintro (rfl | rfl) <;> rfl
  · intro h
    by_contra hlt
    push_neg at hlt
    interval_cases n <;> simp [respStatusContinuous] at h
  
/-- Witness for C10 at duration 31 s and a single recognized word. -/
theorem claim_c10_continuous_witness :
    isShortAudio 31 = false ∧ respStatusContinuous 1 = 500 := by
  have h := claim_c10_continuous 31 1 (by norm_num)
  exact ⟨h.1, h.2.1 (Or.inr rfl)⟩

/-- Claim C4: with a non-empty reference token sequence, the
completeness score is `round(100 × #{accumulated words still tagged
"None"} / #reference tokens)`, capped at 100. -/
theorem claim_c4_completeness (words : List EngineWord) (refLen : ℕ) (h : refLen ≠ 0) :
    compScore words refLen
      = JSNum.fin ((min 100 (jsRound
          ((100 * ((words.filter (fun w => w.errorType = "None")).length : ℚ)) / (refLen : ℚ))) : ℤ) : ℚ) := by
  have hr : ((refLen : ℚ)) ≠ 0 := Nat.cast_ne_zero.mpr h
  unfold compScore
  simp only [jsDivQ, if_neg hr, jsMulQ, jsToFixed0, jsGt100, decide_eq_true_eq]
  have harg : ((words.filter (fun w => w.errorType = "None")).length : ℚ) / (refLen : ℚ) * 100
      = 100 * ((words.filter (fun w => w.errorType = "None")).length : ℚ) / (refLen : ℚ) := by
    ring
  rw [harg]
  by_cases h100 :
      (100 : ℤ) < jsRound (100 * ((words.filter (fun w => w.errorType = "None")).length : ℚ) / (refLen : ℚ))
  · rw [if_pos (by exact_mod_cast h100), min_eq_left h100.le]
    norm_num
  · rw [if_neg (by exact_mod_cast h100), min_eq_right (not_lt.mp h100)]

/-- Witness for C4: the spec's example — 3 `"None"`-tagged words against
a 4-token reference give completeness 75. -/
theorem claim_c4_completeness_witness :
    compScore scenarioWords 4 = JSNum.fin 75 := by
  rw [claim_c4_completeness scenarioWords 4 (by decide)]
  rw [show (scenarioWords.filter (fun w => w.errorType = "None")).length = 3 from by decide]
  rw [jsRound_eq_floor]
  norm_num

/-- Claim C6 is about behaviour the code does not have: finalization
never validates.  With a reference normalizing to zero tokens the
completeness division is `n/0`: `Infinity`, silently capped to 100 when
some word is tagged `"None"`, `NaN` (`0/0`) otherwise; with an empty
segment list the prosody mean is `0/0 = NaN`.  This theorem evaluates
the embedded code at those failing inputs. -/
theorem claim_c6_missing_validation :
    normalizeRef (String.toList ",") = [] ∧
    compScore [{ word := "hello", accuracy := 100, errorType := "None",
                 duration := 10, offset := 5 }] 0 = JSNum.fin 100 ∧
    compScore [] 0 = JSNum.nan ∧
    prosodyScoreEmb [] = JSNum.nan := by
  refine ⟨by decide, by decide, by decide, by decide⟩

/-- Counterexample to C5: a session whose last segment's first word has
`Offset` 0 (so `startOffset` is falsy).  The duration-weighted mean of
one segment with fluency 80 and duration 10 is 80, but the code keeps
the initial value 0 — the guard is `if (startOffset)`, not a test on the
total duration. -/
theorem claim_c5_counterexample :
    fluencyScoreEmb 0 [80] [10]
      ≠ JSNum.fin ((List.zipWith (· * ·) [(80 : ℚ)] [(10 : ℚ)]).sum / ([(10 : ℚ)] : List ℚ).sum) := by
  have hl : fluencyScoreEmb 0 [80] [10] = JSNum.fin 0 := by
    unfold fluencyScoreEmb
    simp
  rw [hl]
  simp only [ne_eq, JSNum.fin.injEq]
  norm_num

/-- C5 as amended: the weighted mean is produced exactly when
`startOffset` is nonzero and the total duration is nonzero; when
`startOffset` is zero the score is the initial 0 regardless of the
durations; and when `startOffset` is nonzero but all durations (and so
all products) sum to zero the division is `0/0 = NaN`, not 0. -/
theorem claim_c5_amended (s : ℚ) (fs ds : List ℚ) :
    (s ≠ 0 → ds.sum ≠ 0 →
        fluencyScoreEmb s fs ds
          = JSNum.fin ((List.zipWith (· * ·) fs ds).sum / ds.sum)) ∧
    (s = 0 → fluencyScoreEmb s fs ds = JSNum.fin 0) ∧
    (s ≠ 0 → ds.sum = 0 → (List.zipWith (· * ·) fs ds).sum = 0 →
        fluencyScoreEmb s fs ds = JSNum.nan) := by
  refine ⟨?_, ?_, ?_⟩
  · intro hs hd
    unfold fluencyScoreEmb
    rw [if_pos hs]
    unfold jsDivQ
    rw [if_neg hd]
  · intro hs
    unfold fluencyScoreEmb
    simp [hs]
  · intro hs hd hn
    unfold fluencyScoreEmb
    rw [if_pos hs]
    unfold jsDivQ
    rw [if_pos hd, if_pos hn]

/-- Witness for the amended C5 at a segment with nonzero start offset:
the weighted mean is actually produced there. -/
theorem claim_c5_amended_witness :
    fluencyScoreEmb 1 [80] [10]
      = JSNum.fin ((List.zipWith (· * ·) [(80 : ℚ)] [(10 : ℚ)]).sum / ([(10 : ℚ)] : List ℚ).sum) := by
  exact (claim_c5_amended 1 [80] [10]).1 (by norm_num) (by norm_num)

/-- Auxiliary: the head of `dropWhile p l` (if any) fails `p`. -/
theorem head_dropWhile_not {α : Type} (p : α → Bool) :
    ∀ (l : List α) (c : α), (l.dropWhile p).head? = some c → p c = false := by
  intro l
  induction l with
  | nil => intro c hc; simp at hc
  | cons a as ih =>
    intro c hc
    rw [List.dropWhile_cons] at hc
    by_cases ha : p a = true
    · exact ih c (by simpa [ha] using hc)
    · have hfa : p a = false := by simpa using ha
      rw [hfa, if_neg (by simp)] at hc
      simp only [List.head?_cons, Option.some.injEq] at hc
      subst hc
      exact hfa

/-- Auxiliary: a list whose head (if any) fails `p` is unchanged by
`dropWhile p`. -/
theorem dropWhile_eq_self_of_head {α : Type} (p : α → Bool) (l : List α)
    (h : ∀ c, l.head? = some c → p c = false) : l.dropWhile p = l := by
  cases l with
  | nil => rfl
  | cons a as =>
    rw [List.dropWhile_cons, if_neg]
    simp [h a rfl]

/-- Auxiliary: `dropWhile p l` is a suffix of `l`. -/
theorem dropWhile_append_eq {α : Type} (p : α → Bool) :
    ∀ l : List α, ∃ t, t ++ l.dropWhile p = l := by
  intro l
  induction l with
  | nil => exact ⟨[], rfl⟩
  | cons a as ih =>
    by_cases ha : p a = true
    · obtain ⟨t, ht⟩ := ih
      exact ⟨a :: t, by simp [List.dropWhile_cons, ha, ht]⟩
    · exact ⟨[], by simp [List.dropWhile_cons, ha]⟩

/-- Auxiliary: the head of a nonempty initial segment is the head of the
whole list. -/
theorem head_of_initial {α : Type} (x t y : List α) (hxy : x ++ t = y) (c : α)
    (hx : x.head? = some c) : y.head? = some c := by
  cases x with
  | nil => simp at hx
  | cons a as =>
    simp only [List.head?_cons, Option.some.injEq] at hx
    subst hx
    rw [← hxy]
    rfl

/-- JavaScript `trim` is idempotent. -/
theorem jsTrim_idem (l : List Char) : jsTrim (jsTrim l) = jsTrim l := by
  set p := Char.isWhitespace with hp
  set m := l.dropWhile p with hm
  set r := m.reverse.dropWhile p with hr
  have h2 : r.dropWhile p = r := by
    apply dropWhile_eq_self_of_head
    intro c hc
    exact head_dropWhile_not p m.reverse c (by rw [← hr]; exact hc)
  have h1 : r.reverse.dropWhile p = r.reverse := by
    apply dropWhile_eq_self_of_head
    intro c hc
    obtain ⟨t, ht⟩ := dropWhile_append_eq p m.reverse
    have hmr : r.reverse ++ t.reverse = m := by
      have := congrArg List.reverse ht
      simpa [hr] using this
    have hcm : m.head? = some c := head_of_initial r.reverse t.reverse m hmr c hc
    exact head_dropWhile_not p l c (by rw [← hm]; exact hcm)
  show ((r.reverse.dropWhile p).reverse.dropWhile p).reverse = r.reverse
  rw [h1, List.reverse_reverse, h2]

/-- Counterexample to C8: the hypothesis-side token sequence of a
punctuation-only recognized text contains an empty token, because only
the reference side filters falsy tokens (`"".split(" ") = [""]`). -/
theorem claim_c8_counterexample :
    ([] : List Char) ∈ normalizeHyp (String.toList ",") := by
  decide

/-- C8 as amended: only the reference transcript's tokens are trimmed
(each output token equals its whitespace-trimmed form); the
hypothesis-side sequence is split without dropping empty tokens or
trimming, and may contain empty tokens. -/
theorem claim_c8_amended (s t : List Char) (ht : t ∈ normalizeRef s) : jsTrim t = t := by
  unfold normalizeRef at ht
  obtain ⟨u, _, rfl⟩ := List.mem_map.mp ht
  exact jsTrim_idem u

/-- Witness for the amended C8 on the reference text `"a"`. -/
theorem claim_c8_amended_witness : jsTrim (String.toList "a") = String.toList "a" :=
  claim_c8_amended (String.toList "a") (String.toList "a") (by decide)

/-- Claim C2: for every `delete` or `replace` block the classifier
appends an Omission placeholder for each reference token in
`[refStart, refEnd)` — except that the block synthesizes nothing at all
when its `refEnd` equals the reference length and the session's
RecognitionStatus is neither `Success` nor `Failed`. -/
theorem claim_c2_omission_blocks (refWords : List String) (status : String)
    (ops : List Opcode) (d : Opcode) (hd : d ∈ ops)
    (htag : d.tag = "delete" ∨ d.tag = "replace") :
    (¬ (d.i2 = refWords.length ∧ ¬ (status = "Success" ∨ status = "Failed")) →
        ∀ i, d.i1 ≤ i → i < d.i2 →
          RecEntry.omission (refWords.getD i "") ∈ classifyEntries refWords status ops) ∧
    ((d.i2 = refWords.length ∧ ¬ (status = "Success" ∨ status = "Failed")) →
        ∀ t, RecEntry.omission t ∉ entriesOfBlock refWords status d) := by
  constructor
  · intro hskip i hi1 hi2
    apply List.mem_flatMap.mpr
    refine ⟨d, hd, ?_⟩
    unfold entriesOfBlock
    refine List.mem_append.mpr (Or.inl (List.mem_append.mpr (Or.inr ?_)))
    rw [if_pos htag, if_neg hskip]
    exact List.mem_map.mpr ⟨i, List.mem_range'_1.mpr ⟨hi1, by omega⟩, rfl⟩
  · intro hskip t hmem
    unfold entriesOfBlock at hmem
    rw [if_pos htag, if_pos hskip] at hmem
    rcases htag with h | h <;> simp [h] at hmem

/-- Witness for C2 on a concrete trailing `delete` block: with an
in-progress status and `refEnd` short of the reference length, the
omission placeholder for token 0 is appended. -/
theorem claim_c2_omission_blocks_witness :
    RecEntry.omission "a"
      ∈ classifyEntries ["a", "b"] "InProgress" [{ tag := "delete", i1 := 0, i2 := 1, j1 := 0, j2 := 0 }] := by
  have h := claim_c2_omission_blocks ["a", "b"] "InProgress"
    [{ tag := "delete", i1 := 0, i2 := 1, j1 := 0, j2 := 0 }]
    { tag := "delete", i1 := 0, i2 := 1, j1 := 0, j2 := 0 } (by decide) (Or.inl rfl)
  exact h.1 (by decide) 0 (Nat.le_refl 0) (by decide)

/-- Auxiliary: indexing into the mutated word array. -/
theorem mutateFrom_get (F : List ℕ) :
    ∀ (l : List EngineWord) (k j : ℕ),
      (mutateFrom k F l).get? j
        = (l.get? j).map
            (fun w => if k + j ∈ F then { w with errorType := "Insertion" } else w) := by
  intro l
  induction l with
  | nil => intro k j; simp [mutateFrom]
  | cons w ws ih =>
    intro k j
    cases j with
    | zero => simp [mutateFrom]
    | succ j' =>
      show (mutateFrom (k + 1) F ws).get? j' = _
      rw [ih (k + 1) j']
      have hk : k + (j' + 1) = (k + 1) + j' := by omega
      simp [hk]

/-- Auxiliary: the accuracy-score loop collects exactly the defined,
non-`"Insertion"` reconciled words' accuracy values. -/
theorem accuracyList_eq (lw : List (Option RWord)) :
    accuracyList lw
      = (((lw.filterMap id).filter (fun w => ¬ rwErrorType w = "Insertion")).map rwAccuracy) := by
  induction lw with
  | nil => rfl
  | cons ow lw ih =>
    cases ow with
    | none => simpa [accuracyList, List.filterMap_cons] using ih
    | some w =>
      by_cases hw : rwErrorType w = "Insertion"
      · simpa [accuracyList, List.filterMap_cons, hw] using ih
      · simpa [accuracyList, List.filterMap_cons, hw] using ih

/-- Claim C3: for every `insert` or `replace` block (with its hypothesis
range inside the accumulated word array), each recognized word in
`[hypStart, hypEnd)` ends up with `ErrorType = "Insertion"` in the
mutated array and a reference to it is appended to `lastWords`; and the
accuracy mean is computed exactly over the non-`"Insertion"` reconciled
words (Omission placeholders contributing their `?? 0` default). -/
theorem claim_c3_insertion_blocks (allWords : List EngineWord) (refWords : List String)
    (status : String) (ops : List Opcode) (d : Opcode) (hd : d ∈ ops)
    (htag : d.tag = "insert" ∨ d.tag = "replace") (hlen : d.j2 ≤ allWords.length) :
    (∀ j, d.j1 ≤ j → j < d.j2 →
        ((mutatedAllWords allWords ops).get? j).map (fun w => w.errorType) = some "Insertion" ∧
        RecEntry.hypRef j ∈ classifyEntries refWords status ops) ∧
    accuracyList (lastWordsOf allWords refWords status ops)
      = ((((lastWordsOf allWords refWords status ops).filterMap id).filter
          (fun w => ¬ rwErrorType w = "Insertion")).map rwAccuracy) := by
  constructor
  · intro j hj1 hj2
    have hjlen : j < allWords.length := lt_of_lt_of_le hj2 hlen
    have hforced : j ∈ forcedAll allWords.length ops := by
      apply List.mem_flatMap.mpr
      refine ⟨d, hd, ?_⟩
      unfold forcedOfBlock
      rw [if_pos ⟨htag, by omega⟩]
      exact List.mem_range'_1.mpr ⟨hj1, by omega⟩
    constructor
    · unfold mutatedAllWords
      rw [mutateFrom_get]
      rw [List.get?_eq_get hjlen]
      simp [hforced]
    · apply List.mem_flatMap.mpr
      refine ⟨d, hd, ?_⟩
      unfold entriesOfBlock
      refine List.mem_append.mpr (Or.inl (List.mem_append.mpr (Or.inl ?_)))
      rw [if_pos htag]
      exact List.mem_map.mpr ⟨j, List.mem_range'_1.mpr ⟨hj1, by omega⟩, rfl⟩
  · exact accuracyList_eq _

/-- Witness for C3 on a concrete `replace` block: the single recognized
word is reclassified `"Insertion"` and referenced from `lastWords`. -/
theorem claim_c3_insertion_blocks_witness :
    ((mutatedAllWords
          [{ word := "extra", accuracy := 20, errorType := "None", duration := 10, offset := 1 }]
          [{ tag := "replace", i1 := 0, i2 := 1, j1 := 0, j2 := 1 }]).get? 0).map
        (fun w => w.errorType) = some "Insertion" ∧
    RecEntry.hypRef 0
      ∈ classifyEntries ["a"] "Success" [{ tag := "replace", i1 := 0, i2 := 1, j1 := 0, j2 := 1 }] := by
  have h := claim_c3_insertion_blocks
    [{ word := "extra", accuracy := 20, errorType := "None", duration := 10, offset := 1 }]
    ["a"] "Success" [{ tag := "replace", i1 := 0, i2 := 1, j1 := 0, j2 := 1 }]
    { tag := "replace", i1 := 0, i2 := 1, j1 := 0, j2 := 1 } (by decide) (Or.inr rfl) (by decide)
  exact (h.1 0 (Nat.le_refl 0) (by decide))

/-- Claim C1: with terminal RecognitionStatus (`Success`/`Failed`) the
overall score weights the four sub-scores sorted ascending by value as
0.4/0.2/0.2/0.2 from lowest to highest (here `s0 ≤ s1 ≤ s2 ≤ s3` is any
ascending arrangement of `{accuracy, fluency, completeness, prosody}`);
otherwise it is `round(0.6·accuracy + 0.2·fluency + 0.2·prosody)` with
completeness excluded. -/
theorem claim_c1_pron_weighting (a f c p : ℚ) (st : String) (s0 s1 s2 s3 : ℚ)
    (hperm : ([s0, s1, s2, s3] : List ℚ).Perm [a, f, c, p])
    (h01 : s0 ≤ s1) (h12 : s1 ≤ s2) (h23 : s2 ≤ s3) :
    ((st = "Success" ∨ st = "Failed") →
        pronScore a f c p st
          = ((jsRound (s0 * 0.4 + s1 * 0.2 + s2 * 0.2 + s3 * 0.2) : ℤ) : ℚ)) ∧
    (¬ (st = "Success" ∨ st = "Failed") →
        pronScore a f c p st
          = ((jsRound (a * 0.6 + f * 0.2 + p * 0.2) : ℤ) : ℚ)) := by
  have hsorted : List.Sorted (· ≤ ·) [s0, s1, s2, s3] := by
    refine List.Pairwise.cons ?_ (List.Pairwise.cons ?_
      (List.Pairwise.cons ?_ (List.pairwise_singleton _ _)))
    · intro x hx
      fin_cases hx <;> linarith
    · intro x hx
      fin_cases hx <;> linarith
    · intro x hx
      fin_cases hx
      linarith
  have hsort : List.insertionSort (· ≤ ·) [a, f, c, p] = [s0, s1, s2, s3] :=
    List.eq_of_perm_of_sorted
      ((List.perm_insertionSort (· ≤ ·) [a, f, c, p]).trans hperm.symm)
      (List.sorted_insertionSort (· ≤ ·) [a, f, c, p]) hsorted
  constructor
  · intro hst
    simp only [pronScore]
    rw [hsort, if_pos hst]
    rfl
  · intro hst
    simp only [pronScore]
    rw [if_neg hst]

/-- Witness for C1 at the concrete scores 70/80/60/90 with terminal
status: the sorted arrangement is 60 ≤ 70 ≤ 80 ≤ 90. -/
theorem claim_c1_pron_weighting_witness :
    pronScore 70 80 60 90 "Success"
      = ((jsRound ((60 : ℚ) * 0.4 + 70 * 0.2 + 80 * 0.2 + 90 * 0.2) : ℤ) : ℚ) := by
  exact (claim_c1_pron_weighting 70 80 60 90 "Success" 60 70 80 90
    (by decide) (by norm_num) (by norm_num) (by norm_num)).1 (Or.inl rfl)

/-- Counterexample to C7: the returned fluency score is not rounded (nor
clamped): two segments with integer fluency 80 and 91 and equal
durations yield the raw mean 171/2 = 85.5, which differs from its own
nearest-integer rounding. -/
theorem claim_c7_counterexample :
    fluencyScoreEmb 1 [80, 91] [10, 10] = JSNum.fin (171/2) ∧
    (171/2 : ℚ) ≠ ((jsRound (171/2) : ℤ) : ℚ) := by
  constructor
  · unfold fluencyScoreEmb
    rw [if_pos (by norm_num)]
    have hd : ([(10 : ℚ), 10]).sum = 20 := by
      norm_num [List.sum_cons, List.sum_nil]
    have hn : (List.zipWith (· * ·) [(80 : ℚ), 91] [(10 : ℚ), 10]).sum = 1710 := by
      simp [List.zipWith]
      norm_num
    unfold jsDivQ
    rw [hd, hn, if_neg (by norm_num)]
    norm_num
  · rw [jsRound_eq_floor]
    have h86 : ⌊(171/2 : ℚ) + 1/2⌋ = 86 := by norm_num
    rw [h86]
    norm_num

/-- Auxiliary: `jsRound` maps `[0, 100]` into `[0, 100]`. -/
theorem jsRound_bounds (q : ℚ) (h0 : 0 ≤ q) (h1 : q ≤ 100) :
    0 ≤ jsRound q ∧ jsRound q ≤ 100 := by
  rw [jsRound_eq_floor]
  constructor
  · have h : (0 : ℤ) = ⌊(1/2 : ℚ)⌋ := by norm_num
    rw [h]
    exact Int.floor_le_floor (by linarith)
  · have h : (100 : ℤ) = ⌊(100 + 1/2 : ℚ)⌋ := by norm_num
    rw [h]
    exact Int.floor_le_floor (by linarith)

/-- C7 as amended: `accuracyScore`, `completenessScore` and `pronScore`
are rounded to integers but `fluencyScore`/`prosodyScore` are returned
as raw means, and the only clamp is the completeness cap at 100; still,
whenever the four aggregated sub-scores lie in `[0, 100]`, the overall
pronunciation score lies in `[0, 100]` in both status modes. -/
theorem claim_c7_amended (a f c p : ℚ) (st : String)
    (ha0 : 0 ≤ a) (ha1 : a ≤ 100) (hf0 : 0 ≤ f) (hf1 : f ≤ 100)
    (hc0 : 0 ≤ c) (hc1 : c ≤ 100) (hp0 : 0 ≤ p) (hp1 : p ≤ 100) :
    0 ≤ pronScore a f c p st ∧ pronScore a f c p st ≤ 100 := by
  simp only [pronScore]
  set L := List.insertionSort (· ≤ ·) [a, f, c, p] with hLdef
  have hlen : L.length = 4 := (List.perm_insertionSort (· ≤ ·) [a, f, c, p]).length_eq
  have hmem : ∀ x ∈ L, 0 ≤ x ∧ x ≤ 100 := by
    intro x hx
    have hx' : x ∈ [a, f, c, p] := (List.perm_insertionSort (· ≤ ·) [a, f, c, p]).subset hx
    fin_cases hx' <;> exact ⟨by assumption, by assumption⟩
  have hget : ∀ i, i < 4 → 0 ≤ L.getD i 0 ∧ L.getD i 0 ≤ 100 := by
    intro i hi
    have hi' : i < L.length := by omega
    rw [List.getD_eq_getElem L 0 hi']
    exact hmem _ (List.getElem_mem hi')
  by_cases hst : st = "Success" ∨ st = "Failed"
  · rw [if_pos hst]
    have h0 := hget 0 (by omega)
    have h1 := hget 1 (by omega)
    have h2 := hget 2 (by omega)
    have h3 := hget 3 (by omega)
    have hb := jsRound_bounds (L.getD 0 0 * 0.4 + L.getD 1 0 * 0.2 + L.getD 2 0 * 0.2 + L.getD 3 0 * 0.2)
      (by nlinarith [h0.1, h1.1, h2.1, h3.1]) (by nlinarith [h0.2, h1.2, h2.2, h3.2])
    constructor
    · exact_mod_cast hb.1
    · exact_mod_cast hb.2
  · rw [if_neg hst]
    have hb := jsRound_bounds (a * 0.6 + f * 0.2 + p * 0.2)
      (by nlinarith) (by nlinarith)
    constructor
    · exact_mod_cast hb.1
    · exact_mod_cast hb.2

/-- Witness for the amended C7 at four in-range sub-scores. -/
theorem claim_c7_amended_witness :
    0 ≤ pronScore 70 80 60 90 "InProgress" ∧ pronScore 70 80 60 90 "InProgress" ≤ 100 := by
  exact claim_c7_amended 70 80 60 90 "InProgress" (by norm_num) (by norm_num) (by norm_num)
    (by norm_num) (by norm_num) (by norm_num) (by norm_num) (by norm_num)
